import Mathlib

/- Shallow embedding of the pdn_checker scan engine (Go, package main).
Strings are modelled as lists of Unicode code points (`List Nat`), matching
Go's rune-wise operations (`range` over a string, `strings.Contains` on valid
UTF-8, `regexp` rune classes).  Byte-level operations (`len`, slicing in
`maskSensitiveData`, the bytes written to the CSV report) work on UTF-8 byte
lists produced by `utf8Encode`.  Database I/O (catalog queries, row sampling)
is external: the functions below receive the sampled rows / column lists that
the SQL layer would deliver, exactly at the collaborator interfaces of the
program. -/

namespace PdnChecker

/-- Code points of a Lean string literal; used to transcribe the Go program's
string literals into the `List Nat` string model. -/
def str (s : String) : List Nat := s.data.map Char.toNat

/-- Rune map of Go's `strings.ToLower` on the alphabets the program's rule
tables inspect (`A`-`Z`, `А`-`Я` map down by 32, `Ё` to `ё`) together with
the Unicode simple case mappings that cross from outside them into ASCII:
`İ` (U+0130) lowers to `i` and the Kelvin sign `K` (U+212A) to `k`.  These
crossing mappings are what make Go's full Unicode casing differ from naive
per-alphabet casing. -/
def toLowerChar (r : Nat) : Nat :=
  if 65 ≤ r ∧ r ≤ 90 then r + 32
  else if 1040 ≤ r ∧ r ≤ 1071 then r + 32
  else if r = 1025 then 1105
  else if r = 304 then 105
  else if r = 8490 then 107
  else r

/-- Go's `strings.ToUpper` likewise: `a`-`z`, `а`-`я` map up by 32, `ё` to
`Ё`, and the ASCII-crossing simple mappings long s `ſ` (U+017F) to `S` and
dotless i `ı` (U+0131) to `I`. -/
def toUpperChar (r : Nat) : Nat :=
  if 97 ≤ r ∧ r ≤ 122 then r - 32
  else if 1072 ≤ r ∧ r ≤ 1103 then r - 32
  else if r = 1105 then 1025
  else if r = 383 then 83
  else if r = 305 then 73
  else r

/-- `strings.ToLower` over a whole string. -/
def goToLower (s : List Nat) : List Nat := s.map toLowerChar

/-- `strings.ToUpper` over a whole string. -/
def goToUpper (s : List Nat) : List Nat := s.map toUpperChar

/-- Character read `s[i]` with the out-of-range sentinel 0 (NUL never occurs
in the sampled data, so 0 is a safe "no character" value for the matchers). -/
def at0 (s : List Nat) (i : Nat) : Nat := s.getD i 0

/-- ASCII decimal digit, the `\d` class of Go's RE2 regexp. -/
def isDigitN (r : Nat) : Bool := decide (48 ≤ r ∧ r ≤ 57)

/-- ASCII lowercase letter `[a-z]`. -/
def isLowerLatin (r : Nat) : Bool := decide (97 ≤ r ∧ r ≤ 122)

/-- RE2 word character `[0-9A-Za-z_]`, the class used by the `\b` anchor. -/
def wordCharRE (r : Nat) : Bool :=
  isDigitN r || decide (65 ≤ r ∧ r ≤ 90) || isLowerLatin r || decide (r = 95)

/-- RE2 whitespace class `\s`: tab, newline, form feed, carriage return
and space. -/
def spaceRE (r : Nat) : Bool := decide (r = 9 ∨ r = 10 ∨ r = 12 ∨ r = 13 ∨ r = 32)

/-- Character class `[a-z0-9._%+-]` of the email pattern's local part. -/
def localPartChar (r : Nat) : Bool :=
  isLowerLatin r || isDigitN r || decide (r = 46 ∨ r = 95 ∨ r = 37 ∨ r = 43 ∨ r = 45)

/-- Character class `[a-z0-9.-]` of the email pattern's domain part. -/
def domainChar (r : Nat) : Bool :=
  isLowerLatin r || isDigitN r || decide (r = 46 ∨ r = 45)

/-- Exactly `cnt` consecutive digits of `s` starting at index `i`. -/
def digitsAt (s : List Nat) (i cnt : Nat) : Bool :=
  decide (i + cnt ≤ s.length) && (List.range cnt).all fun t => isDigitN (at0 s (i + t))

/-- Optional single separator (a regex `X?` whose class never contains a
digit): consume one character at `i` when it is a separator. -/
def skipOpt (s : List Nat) (i : Nat) (sep : Nat → Bool) : Nat :=
  if sep (at0 s i) then i + 1 else i

/-- Occurrence of `kw` as a substring of `s` at position `i`. -/
def matchAt (s kw : List Nat) (i : Nat) : Bool :=
  decide (i + kw.length ≤ s.length) &&
    (List.range kw.length).all fun t => decide (at0 s (i + t) = at0 kw t)

/-- Go's `strings.Contains` (UTF-8 is self-synchronising, so byte-level
containment of one valid string in another is rune-level containment). -/
def strContains (s kw : List Nat) : Bool :=
  (List.range (s.length + 1)).any fun i => matchAt s kw i

/-- The Go helper `containsAny`: some element of `substrings` occurs in `s`. -/
def containsAny (s : List Nat) (substrings : List (List Nat)) : Bool :=
  substrings.any fun sub => strContains s sub

/-- The Go helper `contains` for `[]string`. -/
def contains (slice : List (List Nat)) (item : List Nat) : Bool :=
  slice.any fun x => x == item

/-- The Go helper `appendIfNotExists`: append each item not yet present. -/
def appendIfNotExists (slice : List (List Nat)) (items : List (List Nat)) : List (List Nat) :=
  items.foldl (fun acc item => if contains acc item then acc else acc ++ [item]) slice

/-- Matcher of the `Email` regex `[a-z0-9._%+-]+@[a-z0-9.-]+\.[a-z]{2,}`
(existential match anywhere, as `regexp.MatchString`): an `@` preceded by a
local-part character, then a nonempty run of domain characters up to some
dot that is followed by at least two lowercase letters. -/
def emailMatch (s : List Nat) : Bool :=
  (List.range s.length).any fun i =>
    decide (at0 s i = 64) && decide (1 ≤ i) && localPartChar (at0 s (i - 1)) &&
      ((List.range s.length).any fun k =>
        decide (i + 2 ≤ k) && decide (k + 3 ≤ s.length) && decide (at0 s k = 46) &&
          ((List.range (k - i - 1)).all fun t => domainChar (at0 s (i + 1 + t))) &&
          isLowerLatin (at0 s (k + 1)) && isLowerLatin (at0 s (k + 2)))

/-- Separator class `[\s\-\(]` after the phone prefix. -/
def phoneSep1 (r : Nat) : Bool := spaceRE r || decide (r = 45 ∨ r = 40)

/-- Separator class `[\)\s\-]` after the first digit group. -/
def phoneSep2 (r : Nat) : Bool := decide (r = 41) || spaceRE r || decide (r = 45)

/-- Separator class `[\s\-]` (also `[-\s]`). -/
def sepSpaceDash (r : Nat) : Bool := spaceRE r || decide (r = 45)

/-- The `(\+7|8)` alternative of the phone regex: position just after the
prefix when it is present at `i`. -/
def phoneStart (s : List Nat) (i : Nat) : Option Nat :=
  if at0 s i = 43 then (if at0 s (i + 1) = 55 then some (i + 2) else none)
  else if at0 s i = 56 then some (i + 1)
  else none

/-- Matcher of the `Телефон` regex
`(\+7|8)[\s\-\(]?\d{3}[\)\s\-]?\d{3}[\s\-]?\d{2}[\s\-]?\d{2}` starting at
`i`; the optional separators are disjoint from digits, so the scan is
deterministic. -/
def phoneMatchAt (s : List Nat) (i : Nat) : Bool :=
  match phoneStart s i with
  | none => false
  | some j =>
    let a := skipOpt s j phoneSep1
    digitsAt s a 3 &&
      (let b := skipOpt s (a + 3) phoneSep2
       digitsAt s b 3 &&
         (let c := skipOpt s (b + 3) sepSpaceDash
          digitsAt s c 2 &&
            (let d := skipOpt s (c + 2) sepSpaceDash
             digitsAt s d 2)))

/-- Existential phone match anywhere in `s`. -/
def phoneMatch (s : List Nat) : Bool :=
  (List.range s.length).any fun i => phoneMatchAt s i

/-- The `\b` anchor immediately before a digit at position `i`. -/
def boundaryBefore (s : List Nat) (i : Nat) : Bool :=
  decide (i = 0) || !wordCharRE (at0 s (i - 1))

/-- The `\b` anchor immediately after a digit ending at position `e`. -/
def boundaryAfter (s : List Nat) (e : Nat) : Bool :=
  decide (e = s.length) || !wordCharRE (at0 s e)

/-- First alternative `\d{2}\s?\d{2}\s?\d{6}` of the passport regex's
bounded branch, starting at `i`, including the trailing `\b`. -/
def passportGrouped (s : List Nat) (i : Nat) : Bool :=
  digitsAt s i 2 &&
    (let a := skipOpt s (i + 2) spaceRE
     digitsAt s a 2 &&
       (let b := skipOpt s (a + 2) spaceRE
        digitsAt s b 6 && boundaryAfter s (b + 6)))

/-- Second alternative `\d{10}` of the passport regex's bounded branch. -/
def passportPlain (s : List Nat) (i : Nat) : Bool :=
  digitsAt s i 10 && boundaryAfter s (i + 10)

/-- All characters of `s` in the half-open index range `[p, j)` are
non-digits: the span a `[^\d]*` can consume. -/
def nonDigitRange (s : List Nat) (p j : Nat) : Bool :=
  (List.range (j - p)).all fun t => !isDigitN (at0 s (p + t))

/-- Keyword branch `(?:паспорт|серия|номер)[^\d]*(\d{4})[^\d]*(\d{6})` of the
`Паспорт РФ` regex (on the lower-cased input). -/
def passportKeywordMatch (s : List Nat) : Bool :=
  (List.range (s.length + 1)).any fun i =>
    [str "паспорт", str "серия", str "номер"].any fun kw =>
      matchAt s kw i &&
        ((List.range (s.length + 1)).any fun j =>
          decide (i + kw.length ≤ j) && nonDigitRange s (i + kw.length) j &&
            digitsAt s j 4 &&
            ((List.range (s.length + 1)).any fun k =>
              decide (j + 4 ≤ k) && nonDigitRange s (j + 4) k && digitsAt s k 6))

/-- Matcher of the `Паспорт РФ` regex
`\b(\d{2}\s?\d{2}\s?\d{6}|\d{10})\b|(?:паспорт|серия|номер)[^\d]*(\d{4})[^\d]*(\d{6})`. -/
def passportMatch (s : List Nat) : Bool :=
  ((List.range s.length).any fun i =>
    boundaryBefore s i && (passportGrouped s i || passportPlain s i)) ||
    passportKeywordMatch s

/-- Matcher of the `СНИЛС` regex `\b\d{3}[-]?\d{3}[-]?\d{3}[-\s]?\d{2}\b`
starting at position `i`. -/
def snilsMatchAt (s : List Nat) (i : Nat) : Bool :=
  boundaryBefore s i && digitsAt s i 3 &&
    (let a := skipOpt s (i + 3) (fun r => decide (r = 45))
     digitsAt s a 3 &&
       (let b := skipOpt s (a + 3) (fun r => decide (r = 45))
        digitsAt s b 3 &&
          (let c := skipOpt s (b + 3) sepSpaceDash
           digitsAt s c 2 && boundaryAfter s (c + 2))))

/-- Existential СНИЛС match anywhere in `s`. -/
def snilsMatch (s : List Nat) : Bool :=
  (List.range s.length).any fun i => snilsMatchAt s i

/-- Matcher of the `ИНН физлица` regex `(^|\D)\d{12}($|\D)`: a run of twelve
digits whose two neighbours are the string boundary or a non-digit. -/
def innMatch (s : List Nat) : Bool :=
  (List.range (s.length + 1)).any fun i =>
    (decide (i = 0) || !isDigitN (at0 s (i - 1))) && digitsAt s i 12 &&
      (decide (i + 12 = s.length) || !isDigitN (at0 s (i + 12)))

/-- Matcher of the `Кредитная карта` regex
`\d{4}[\s\-]?\d{4}[\s\-]?\d{4}[\s\-]?\d{4}`. -/
def cardMatch (s : List Nat) : Bool :=
  (List.range s.length).any fun i =>
    digitsAt s i 4 &&
      (let a := skipOpt s (i + 4) sepSpaceDash
       digitsAt s a 4 &&
         (let b := skipOpt s (a + 4) sepSpaceDash
          digitsAt s b 4 &&
            (let c := skipOpt s (b + 4) sepSpaceDash
             digitsAt s c 4)))

/-- The `valuePatterns` table of `checkForPDNPatterns` (category, matcher),
in the order of the Go map literal; Go's map iteration order is unspecified,
so the result list's order is canonicalised here while its membership is
exactly the program's. -/
def valuePatternsTable : List (List Nat × (List Nat → Bool)) :=
  [(str "Email", emailMatch),
   (str "Телефон", phoneMatch),
   (str "Паспорт РФ", passportMatch),
   (str "СНИЛС", snilsMatch),
   (str "ИНН физлица", innMatch),
   (str "Кредитная карта", cardMatch)]

/-- The `headerPatterns` table of `checkForPDNPatterns` (category, keyword
substrings), transcribed from the Go map literal. -/
def headerPatternsTable : List (List Nat × List (List Nat)) :=
  [(str "ФИО",
    [str "фамил", str "fami", str "surn", str "lastname", str "last name",
     str "last_name", str "имя", str "firstname", str "first name",
     str "first_name", str "отчест", str "middlename", str "middle name",
     str "middle_name", str "patronym", str "фам", str "fio", str "фио",
     str "fullname", str "full name"]),
   (str "Персональные данные",
    [str "контакт", str "сотруд", str "руковод", str "manag", str "физи",
     str "физл", str "персон", str "person", str "empl"]),
   (str "Адрес",
    [str "адрес", str "address", str "addr", str "location", str "место"]),
   (str "Email",
    [str "эп", str "mail", str "адресэп", str "адрес эп"]),
   (str "Телефон",
    [str "телефон", str "phone", str "tel", str "мобильн", str "mobile",
     str "contact"]),
   (str "Паспорт",
    [str "паспор", str "passpor", str "серия", str "series"]),
   (str "СНИЛС/ИНН",
    [str "снилс", str "snils", str "инн", str "taxid", str "tax id"]),
   (str "Дата рождения",
    [str "рожд", str "birth", str "dateofbirth", str "birthdate",
     str "датарожд", str "дата рожд"]),
   (str "Таб. номер",
    [str "таб", str "табель"]),
   (str "Фото",
    [str "фото", str "foto", str "photo"])]

/-- Street and flat tokens of the extra address rule. -/
def streetTokens : List (List Nat) :=
  [str "ул.", str "улица", str "дом", str "кв.", str "квартира"]

/-- Birth tokens of the extra birth-date rule. -/
def birthTokens : List (List Nat) :=
  [str "рожден", str "birthday"]

/-- The loop over `valuePatterns`: append the category of every matching
regex (plain `append`; the table's categories are pairwise distinct). -/
def valueLoop (inp : List Nat) (tbl : List (List Nat × (List Nat → Bool)))
    (acc : List (List Nat)) : List (List Nat) :=
  tbl.foldl (fun a p => if p.2 inp then a ++ [p.1] else a) acc

/-- The inner loop over one header category's keywords: each keyword that
occurs adds the category through `appendIfNotExists`. -/
def keywordLoop (inp : List Nat) (kws : List (List Nat)) (cat : List Nat)
    (acc : List (List Nat)) : List (List Nat) :=
  kws.foldl (fun a kw => if strContains inp kw then appendIfNotExists a [cat] else a) acc

/-- The loop over `headerPatterns`. -/
def headerLoop (inp : List Nat) (tbl : List (List Nat × List (List Nat)))
    (acc : List (List Nat)) : List (List Nat) :=
  tbl.foldl (fun a p => keywordLoop inp p.2 p.1 a) acc

/-- Body of `checkForPDNPatterns` on the already lower-cased input. -/
def checkCore (inp : List Nat) : List (List Nat) :=
  let f1 := valueLoop inp valuePatternsTable []
  let f2 := headerLoop inp headerPatternsTable f1
  let f3 := if containsAny inp streetTokens then appendIfNotExists f2 [str "Адрес"] else f2
  if containsAny inp birthTokens then appendIfNotExists f3 [str "Дата рождения"] else f3

/-- The Go classifier `checkForPDNPatterns`: lower-case the input, collect
the categories of every matching value regex, every matched header keyword,
and the two extra street/birth rules. -/
def checkForPDNPatterns (input : List Nat) : List (List Nat) :=
  checkCore (goToLower input)

/-- Rune class of `getValuePattern`'s switch: the ranges `а`-`я`, `А`-`Я`,
`a`-`z`, `A`-`Z` give `A` (65), `0`-`9` gives `9` (57), anything else
gives `#` (35). -/
def charClass (r : Nat) : Nat :=
  if (1072 ≤ r ∧ r ≤ 1103) ∨ (1040 ≤ r ∧ r ≤ 1071) ∨ (97 ≤ r ∧ r ≤ 122) ∨
      (65 ≤ r ∧ r ≤ 90) then 65
  else if 48 ≤ r ∧ r ≤ 57 then 57
  else 35

/-- The Go value abstractor `getValuePattern`: one class character appended
per rune, in order. -/
def getValuePattern : List Nat → List Nat
  | [] => []
  | r :: rest => charClass r :: getValuePattern rest

/-- A sampled value together with its abstraction pattern (Go `ValuePattern`). -/
structure ValuePattern where
  Value : List Nat
  Pattern : List Nat
deriving DecidableEq, Repr

/-- The pattern-grouping step at the end of `getSampleValues`: walk the
sampled values in order, keeping the first value of each new pattern
(`patternMap` insertion; Go's map iteration order is unspecified, the
representative set is canonicalised here in insertion order). -/
def dedupGo (acc : List ValuePattern) : List (List Nat) → List ValuePattern
  | [] => acc
  | v :: rest =>
    if acc.any (fun e => e.Pattern == getValuePattern v) then dedupGo acc rest
    else dedupGo (acc ++ [⟨v, getValuePattern v⟩]) rest

/-- One representative sampled value per distinct abstraction pattern, in
canonical insertion order.  The Go program iterates `patternMap` in an
unspecified order, so what `getSampleValues` actually returns is SOME
permutation of this list; consumers of the sampler interface below either
quantify over those permutations (claim C9) or are order-independent. -/
def dedupByPattern (values : List (List Nat)) : List ValuePattern :=
  dedupGo [] values

/-- UTF-8 bytes of one code point. -/
def utf8EncodeChar (r : Nat) : List Nat :=
  if r < 128 then [r]
  else if r < 2048 then [192 + r / 64, 128 + r % 64]
  else if r < 65536 then [224 + r / 4096, 128 + r / 64 % 64, 128 + r % 64]
  else [240 + r / 262144, 128 + r / 4096 % 64, 128 + r / 64 % 64, 128 + r % 64]

/-- UTF-8 bytes of a string of code points: the byte string Go holds. -/
def utf8Encode (s : List Nat) : List Nat :=
  (s.map utf8EncodeChar).flatten

/-- The Go masker `maskSensitiveData` (part_000 variant): operates on the
byte string; the sentinel `N/A` passes through, byte length above 8 keeps
the first and last four bytes around `****`, anything shorter becomes
`****`. -/
def maskSensitiveData (value : List Nat) : List Nat :=
  if value = str "N/A" then value
  else if 8 < value.length then
    value.take 4 ++ str "****" ++ value.drop (value.length - 4)
  else str "****"

/-- Modelled from the spec's words for comparison (claim C3 reads the mask
rule over characters): first/last four CHARACTERS around `****` when the
CHARACTER count exceeds 8, else `****`, sentinel `N/A` untouched. -/
def maskPerSpecChars (s : List Nat) : List Nat :=
  if s = str "N/A" then s
  else if 8 < s.length then s.take 4 ++ str "****" ++ s.drop (s.length - 4)
  else str "****"

/-- One output record (Go `PDNResult`). -/
structure PDNResult where
  DatabaseName : List Nat
  SchemaName : List Nat
  TableName : List Nat
  TableType : List Nat
  ColumnName : List Nat
  FoundIn : List Nat
  SampleValue : List Nat
  Pattern : List Nat
  PDNType : List Nat
deriving DecidableEq, Repr

/-- Column metadata (Go `ColumnInfo`). -/
structure ColumnInfo where
  ColumnName : List Nat
  DataType : List Nat
deriving DecidableEq, Repr

/-- Outcome of `getSampleValues` for one column, at the sampler collaborator
interface: the deduplicated value/pattern list, or the I/O error message of
the failed row queries. -/
inductive SampleOutcome where
  | ok (values : List ValuePattern)
  | fail (msg : List Nat)
deriving DecidableEq, Repr

/-- The first deduplicated sampled value of a column, or the sentinel
(Go: `sampleValue := "N/A"; if len(values) > 0 { sampleValue = values[0].Value }`). -/
def firstSampleValue (values : List ValuePattern) : List Nat :=
  match values with
  | [] => str "N/A"
  | v :: _ => v.Value

/-- The first sampled value's pattern, or the empty string (the Go zero
value left in `res.Pattern` when no value is available). -/
def firstSamplePattern (values : List ValuePattern) : List Nat :=
  match values with
  | [] => []
  | v :: _ => v.Pattern

/-- Header section of `analyzeColumn`: one header-evidence record per
category the classifier finds on the column NAME, each carrying the first
sampled value (or `N/A`) and its pattern (or empty). -/
def headerRecords (database schema tname ttype : List Nat) (column : ColumnInfo)
    (values : List ValuePattern) : List PDNResult :=
  (checkForPDNPatterns column.ColumnName).map fun t =>
    { DatabaseName := database, SchemaName := schema, TableName := tname,
      TableType := ttype, ColumnName := column.ColumnName, FoundIn := str "header",
      SampleValue := firstSampleValue values, Pattern := firstSamplePattern values,
      PDNType := t }

/-- Value section of `analyzeColumn`: one value-evidence record per category
the classifier finds on each sampled value. -/
def valueRecords (database schema tname ttype : List Nat) (column : ColumnInfo)
    (values : List ValuePattern) : List PDNResult :=
  (values.map fun v =>
    (checkForPDNPatterns v.Value).map fun t =>
      { DatabaseName := database, SchemaName := schema, TableName := tname,
        TableType := ttype, ColumnName := column.ColumnName, FoundIn := str "value",
        SampleValue := v.Value, Pattern := v.Pattern, PDNType := t }).flatten

/-- The `valuePdnTypes` accumulator of `analyzeColumn`'s value loop. -/
def valuePdnTypesOf (values : List ValuePattern) : List (List Nat) :=
  values.foldl (fun acc v =>
    let ts := checkForPDNPatterns v.Value
    if ts = [] then acc else appendIfNotExists acc ts) []

/-- Fallback section of `analyzeColumn`: a single `Нет` record when neither
the column name nor any sampled value matched. -/
def noneRecords (database schema tname ttype : List Nat) (column : ColumnInfo)
    (values : List ValuePattern) : List PDNResult :=
  if checkForPDNPatterns column.ColumnName = [] ∧ valuePdnTypesOf values = [] then
    [{ DatabaseName := database, SchemaName := schema, TableName := tname,
       TableType := ttype, ColumnName := column.ColumnName, FoundIn := str "none",
       SampleValue := firstSampleValue values, Pattern := firstSamplePattern values,
       PDNType := str "Нет" }]
  else []

/-- The Go column analyzer `analyzeColumn` (part_000 variant), given the
sampler's outcome.  A sampler error degrades to a single error-evidence
record and, like the Go function whose error result is always `nil`, never
fails.  Otherwise the header, value and fallback sections run in order. -/
def analyzeColumn (database schema tname ttype : List Nat) (column : ColumnInfo)
    (sampled : SampleOutcome) : List PDNResult :=
  match sampled with
  | .fail e =>
    [{ DatabaseName := database, SchemaName := schema, TableName := tname,
       TableType := ttype, ColumnName := column.ColumnName,
       FoundIn := str "error", SampleValue := str "N/A",
       Pattern := str "Ошибка получения значений: " ++ e,
       PDNType := str "Не обработано" }]
  | .ok values =>
    headerRecords database schema tname ttype column values ++
      valueRecords database schema tname ttype column values ++
      noneRecords database schema tname ttype column values

/-- One dispatched column of a table in `analyzeTablesWithBatches`: its
metadata, its sampler outcome, and whether the aggregation loop observed the
column goroutine's message before the table budget cut collection short
(`observed = false` covers both a never-delivered result and one whose
channel message lost the race against `tableCtx.Done()`). -/
structure ColumnTask where
  col : ColumnInfo
  sampled : SampleOutcome
  observed : Bool
deriving DecidableEq, Repr

/-- The synthetic record built in the per-table post-loop for a column whose
completion was never observed. -/
def timeoutRecord (database schema tname ttype colName : List Nat) : PDNResult :=
  { DatabaseName := database, SchemaName := schema, TableName := tname,
    TableType := ttype, ColumnName := colName, FoundIn := str "timeout",
    SampleValue := str "N/A", Pattern := str "Превышено время обработки",
    PDNType := str "Не обработано" }

/-- Records the collection loop sends to `resultsChan` (one per record of
every observed column's result slice); emission order across columns is the
completion order, abstracted here to column order — the claims below are
membership and count statements, which are order-independent. -/
def tableLoopEmitted (database schema tname ttype : List Nat)
    (tasks : List ColumnTask) : List PDNResult :=
  ((tasks.filter fun t => t.observed).map fun t =>
    analyzeColumn database schema tname ttype t.col t.sampled).flatten

/-- The `processedColumns` set after the collection loop: the column names of
the records that were sent. -/
def processedNames (database schema tname ttype : List Nat)
    (tasks : List ColumnTask) : List (List Nat) :=
  (tableLoopEmitted database schema tname ttype tasks).map fun r => r.ColumnName

/-- Synthetic timeout records of the post-loop: one per dispatched column
whose name was never marked processed. -/
def tableTimeouts (database schema tname ttype : List Nat)
    (tasks : List ColumnTask) : List PDNResult :=
  (tasks.filter fun t =>
    !contains (processedNames database schema tname ttype tasks) t.col.ColumnName).map
    fun t => timeoutRecord database schema tname ttype t.col.ColumnName

/-- Everything `analyzeTablesWithBatches` delivers to `resultsChan` for one
table whose column list was obtained: the collection-loop records followed by
the timeout synthetics.  The address-suppression pass below runs after this
delivery, on the local `allTableResults` copy only. -/
def tableDelivered (database schema tname ttype : List Nat)
    (tasks : List ColumnTask) : List PDNResult :=
  tableLoopEmitted database schema tname ttype tasks ++
    tableTimeouts database schema tname ttype tasks

/-- The `hasOtherPersonalData` scan of the suppression pass: some collected
record carries a category other than `Адрес`, `Нет`, `Не обработано`. -/
def hasOtherPersonalData (rs : List PDNResult) : Bool :=
  rs.any fun r =>
    !(r.PDNType == str "Адрес" || r.PDNType == str "Нет" ||
      r.PDNType == str "Не обработано")

/-- The address-suppression pass over the local `allTableResults` copy: when
no other category is present, every `Адрес` entry is downgraded to `Нет`. -/
def suppressAddress (rs : List PDNResult) : List PDNResult :=
  if hasOtherPersonalData rs then rs
  else rs.map fun r =>
    if r.PDNType == str "Адрес" then { r with PDNType := str "Нет" } else r

/-- The `ПДн (Да\Нет)` flag of `saveResultsToCSVBatches` (part_000 variant):
`Нет` for the no-match and unprocessed sentinels, `Да` otherwise; computed
from the record's `PDNType` alone. -/
def pdnFlag (r : PDNResult) : List Nat :=
  if r.PDNType == str "Нет" || r.PDNType == str "Не обработано" then str "Нет"
  else str "Да"

/-- One data row written by `saveResultsToCSVBatches`, as the byte strings
of its ten fields (the masker works on bytes, so every field is carried as
its UTF-8 encoding). -/
def csvRow (server : List Nat) (r : PDNResult) : List (List Nat) :=
  [utf8Encode server, utf8Encode r.DatabaseName, utf8Encode r.SchemaName,
   utf8Encode r.TableName, utf8Encode r.TableType, utf8Encode r.ColumnName,
   utf8Encode (pdnFlag r), utf8Encode r.PDNType, utf8Encode r.SampleValue,
   maskSensitiveData (utf8Encode r.SampleValue)]

/-- Modelled from the spec's words for claim C8: the input contains a run of
exactly twelve decimal digits bounded on both sides by a non-digit character
or by the string boundary. -/
def innPred (s : List Nat) : Prop :=
  ∃ i < s.length + 1,
    (i = 0 ∨ isDigitN (at0 s (i - 1)) = false) ∧
    (i + 12 ≤ s.length ∧ ∀ t < 12, isDigitN (at0 s (i + t)) = true) ∧
    (i + 12 = s.length ∨ isDigitN (at0 s (i + 12)) = false)

instance (s : List Nat) : Decidable (innPred s) := by
  unfold innPred; infer_instance

/-- A plain integer column, observed, no samples: used as a concrete table
in the closed instances below. -/
def taskId : ColumnTask :=
  { col := { ColumnName := str "id", DataType := str "int" },
    sampled := .ok [], observed := true }

/-- A name column with one Cyrillic sample, observed. -/
def taskFio : ColumnTask :=
  { col := { ColumnName := str "фио", DataType := str "nvarchar" },
    sampled := .ok [⟨str "Иванов", str "AAAAAA"⟩], observed := true }

/-- A column whose completion the collection loop never observed. -/
def taskNote : ColumnTask :=
  { col := { ColumnName := str "note", DataType := str "nvarchar" },
    sampled := .ok [], observed := false }

/-- A three-column table exercising all dispositions. -/
def sampleTasks : List ColumnTask := [taskId, taskFio, taskNote]

/-- An address-only column: its name matches exactly the `Адрес` category. -/
def addressTask : ColumnTask :=
  { col := { ColumnName := str "адрес", DataType := str "nvarchar" },
    sampled := .ok [], observed := true }

/- ------------------------------------------------------------------ -/
/- Theorems.                                                          -/
/- ------------------------------------------------------------------ -/

/-- Sanity example of the masker on the spec's round-trip input. -/
theorem mask_example_email :
    maskSensitiveData (str "name@example.com") = str "name****.com" := by decide

/-- Sanity example of the masker on a short input. -/
theorem mask_example_short : maskSensitiveData (str "abc") = str "****" := by decide

/-- Claim C3, counterexample: the Go masker works on BYTES (`len`, slicing),
not characters.  The five-character Cyrillic value `Ивано` has ten UTF-8
bytes, so the code splices its first and last four bytes around `****`,
while the claim's character reading (at most 8 characters) demands the
literal `****`. -/
theorem c3_counterexample :
    maskSensitiveData (utf8Encode (str "Ивано")) ≠
      utf8Encode (maskPerSpecChars (str "Ивано")) := by decide

/-- Claim C3, amended: with length, "first 4" and "last 4" read over UTF-8
bytes (which coincides with the claim's characters on ASCII values), the
masker returns the first four bytes, `****`, and the last four bytes when
the byte length exceeds 8, returns `****` otherwise, and passes the
sentinel `N/A` through unchanged. -/
theorem c3_amended_masking (v : List Nat) (h : v ≠ str "N/A") :
    (maskSensitiveData v =
      if 8 < v.length then v.take 4 ++ str "****" ++ v.drop (v.length - 4)
      else str "****") ∧
    maskSensitiveData (str "N/A") = str "N/A" := by
  constructor
  · unfold maskSensitiveData
    rw [if_neg h]
  · rfl

/-- Witness for C3 at the spec's own example value. -/
theorem c3_amended_masking_witness :
    (maskSensitiveData (str "name@example.com") =
      if 8 < (str "name@example.com").length then
        (str "name@example.com").take 4 ++ str "****" ++
          (str "name@example.com").drop ((str "name@example.com").length - 4)
      else str "****") ∧
    maskSensitiveData (str "N/A") = str "N/A" :=
  c3_amended_masking (str "name@example.com") (by decide)

/-- Claim C4: a sampler I/O error never fails the column analysis (the
embedded `analyzeColumn` is total, as the Go function always returns a nil
error); it produces exactly one record, with `error` evidence, for the
failing column. -/
theorem c4_sampler_error_single_record (database schema tname ttype e : List Nat)
    (col : ColumnInfo) :
    analyzeColumn database schema tname ttype col (.fail e) =
      [{ DatabaseName := database, SchemaName := schema, TableName := tname,
         TableType := ttype, ColumnName := col.ColumnName, FoundIn := str "error",
         SampleValue := str "N/A",
         Pattern := str "Ошибка получения значений: " ++ e,
         PDNType := str "Не обработано" }] ∧
    (analyzeColumn database schema tname ttype col (.fail e)).length = 1 :=
  ⟨rfl, rfl⟩

/-- Claim C5, counterexample: `ё` (U+0451) is a Cyrillic letter, but the
code's range `а`-`я` (U+0430..U+044F) excludes it, so `getValuePattern`
maps it to `#`, not to `A` as the claim's "any Unicode letter (Latin or
Cyrillic)" requires. -/
theorem c5_counterexample :
    getValuePattern (str "ё") = str "#" ∧ getValuePattern (str "ё") ≠ str "A" := by
  decide

/-- Claim C5, amended: the abstraction is total, length-preserving, maps
each character independently of the others (it is `List.map charClass`),
its alphabet is contained in `A`/`9`/`#`, and the letters mapped to `A` are
exactly those of the ranges `a`-`z`, `A`-`Z`, `а`-`я`, `А`-`Я` (so `ё`, `Ё`
and letters outside these ranges fall to `#`), digits `0`-`9` to `9`. -/
theorem c5_amended_value_abstraction (s : List Nat) :
    (getValuePattern s).length = s.length ∧
    (∀ c ∈ getValuePattern s, c = 65 ∨ c = 57 ∨ c = 35) ∧
    getValuePattern s = s.map charClass := by
  have hmap : ∀ u : List Nat, getValuePattern u = u.map charClass := by
    intro u
    induction u with
    | nil => rfl
    | cons a t ih => simp [getValuePattern, ih]
  refine ⟨?_, ?_, hmap s⟩
  · rw [hmap, List.length_map]
  · intro c hc
    rw [hmap] at hc
    obtain ⟨r, _, rfl⟩ := List.mem_map.mp hc
    unfold charClass
    split_ifs <;> simp

/-- Claim C10: the report's `ПДн (Да\Нет)` flag field (field 6 of the row)
is `Нет` exactly for the `Нет` and `Не обработано` categories, `Да`
otherwise, and is a function of the record's `PDNType` alone. -/
theorem c10_csv_flag (server : List Nat) (r : PDNResult) :
    (csvRow server r).getD 6 [] = utf8Encode (pdnFlag r) ∧
    (pdnFlag r = str "Нет" ↔
      (r.PDNType = str "Нет" ∨ r.PDNType = str "Не обработано")) ∧
    (pdnFlag r = str "Да" ↔
      ¬(r.PDNType = str "Нет" ∨ r.PDNType = str "Не обработано")) ∧
    (∀ r2 : PDNResult, r2.PDNType = r.PDNType → pdnFlag r2 = pdnFlag r) := by
  have key : pdnFlag r = str "Нет" ↔
      (r.PDNType = str "Нет" ∨ r.PDNType = str "Не обработано") := by
    unfold pdnFlag
    by_cases h : (r.PDNType == str "Нет" || r.PDNType == str "Не обработано") = true
    · rw [if_pos h]
      simp only [Bool.or_eq_true, beq_iff_eq] at h
      exact ⟨fun _ => h, fun _ => rfl⟩
    · rw [if_neg h]
      simp only [Bool.or_eq_true, beq_iff_eq] at h
      exact ⟨fun hda => absurd hda (by decide), fun hd => absurd hd h⟩
  refine ⟨rfl, key, ⟨?_, ?_⟩, ?_⟩
  · intro hda hdisj
    have h2 := key.mpr hdisj
    rw [hda] at h2
    exact (by decide : str "Да" ≠ str "Нет") h2
  · intro hn
    unfold pdnFlag
    rw [if_neg]
    intro hcontra
    apply hn
    simp only [Bool.or_eq_true, beq_iff_eq] at hcontra
    exact hcontra
  · intro r2 h2
    unfold pdnFlag
    rw [h2]

/-- The Go `contains` helper decides list membership. -/
theorem contains_iff_mem (l : List (List Nat)) (x : List Nat) :
    contains l x = true ↔ x ∈ l := by
  simp [contains, List.any_eq_true, beq_iff_eq]

/-- Membership through `appendIfNotExists` is membership in either list. -/
theorem mem_appendIfNotExists (items acc : List (List Nat)) (x : List Nat) :
    x ∈ appendIfNotExists acc items ↔ x ∈ acc ∨ x ∈ items := by
  induction items generalizing acc with
  | nil => simp [appendIfNotExists]
  | cons it rest ih =>
    rw [show appendIfNotExists acc (it :: rest) =
      appendIfNotExists (if contains acc it then acc else acc ++ [it]) rest from rfl]
    by_cases h : contains acc it = true
    · rw [if_pos h, ih]
      have hit : it ∈ acc := (contains_iff_mem _ _).mp h
      constructor
      · rintro (h1 | h2)
        · exact Or.inl h1
        · exact Or.inr (List.mem_cons_of_mem _ h2)
      · rintro (h1 | h2)
        · exact Or.inl h1
        · rcases List.mem_cons.mp h2 with rfl | h3
          · exact Or.inl hit
          · exact Or.inr h3
    · rw [if_neg h, ih]
      simp only [List.mem_append, List.mem_singleton, List.mem_cons]
      tauto

/-- `appendIfNotExists` preserves freedom from duplicates. -/
theorem nodup_appendIfNotExists (items acc : List (List Nat)) (h : acc.Nodup) :
    (appendIfNotExists acc items).Nodup := by
  induction items generalizing acc with
  | nil => exact h
  | cons it rest ih =>
    rw [show appendIfNotExists acc (it :: rest) =
      appendIfNotExists (if contains acc it then acc else acc ++ [it]) rest from rfl]
    by_cases hc : contains acc it = true
    · rw [if_pos hc]
      exact ih acc h
    · rw [if_neg hc]
      refine ih _ ?_
      rw [List.nodup_append]
      refine ⟨h, List.nodup_singleton _, ?_⟩
      intro a ha hmem
      rw [List.mem_singleton] at hmem
      subst hmem
      exact hc ((contains_iff_mem _ _).mpr ha)

/-- The value-pattern loop appends exactly the labels of the matching rows. -/
theorem valueLoop_eq (inp : List Nat) (tbl : List (List Nat × (List Nat → Bool)))
    (acc : List (List Nat)) :
    valueLoop inp tbl acc =
      acc ++ (tbl.filter fun p => p.2 inp).map fun p => p.1 := by
  induction tbl generalizing acc with
  | nil => simp [valueLoop]
  | cons p rest ih =>
    rw [show valueLoop inp (p :: rest) acc =
      valueLoop inp rest (if p.2 inp then acc ++ [p.1] else acc) from rfl]
    by_cases hp : p.2 inp = true
    · have hf : List.filter (fun q => q.2 inp) (p :: rest) =
          p :: List.filter (fun q => q.2 inp) rest := by
        simp [List.filter_cons, hp]
      rw [if_pos hp, ih, hf, List.map_cons, List.append_assoc, List.singleton_append]
    · have hf : List.filter (fun q => q.2 inp) (p :: rest) =
          List.filter (fun q => q.2 inp) rest := by
        simp [List.filter_cons, hp]
      rw [if_neg hp, ih, hf]

/-- Membership after one header category's keyword loop. -/
theorem mem_keywordLoop (inp : List Nat) (kws : List (List Nat)) (cat : List Nat)
    (acc : List (List Nat)) (x : List Nat) :
    x ∈ keywordLoop inp kws cat acc ↔
      x ∈ acc ∨ (x = cat ∧ ∃ kw ∈ kws, strContains inp kw = true) := by
  induction kws generalizing acc with
  | nil => simp [keywordLoop]
  | cons kw rest ih =>
    rw [show keywordLoop inp (kw :: rest) cat acc =
      keywordLoop inp rest cat
        (if strContains inp kw then appendIfNotExists acc [cat] else acc) from rfl]
    by_cases hk : strContains inp kw = true
    · rw [if_pos hk, ih, mem_appendIfNotExists]
      constructor
      · rintro ((h1 | h2) | ⟨rfl, kw2, hkw2, hc2⟩)
        · exact Or.inl h1
        · rw [List.mem_singleton] at h2
          exact Or.inr ⟨h2, kw, List.mem_cons_self _ _, hk⟩
        · exact Or.inr ⟨rfl, kw2, List.mem_cons_of_mem _ hkw2, hc2⟩
      · rintro (h1 | ⟨rfl, kw2, hkw2, hc2⟩)
        · exact Or.inl (Or.inl h1)
        · exact Or.inl (Or.inr (List.mem_singleton.mpr rfl))
    · rw [if_neg hk, ih]
      constructor
      · rintro (h1 | ⟨rfl, kw2, hkw2, hc2⟩)
        · exact Or.inl h1
        · exact Or.inr ⟨rfl, kw2, List.mem_cons_of_mem _ hkw2, hc2⟩
      · rintro (h1 | ⟨rfl, kw2, hkw2, hc2⟩)
        · exact Or.inl h1
        · rcases List.mem_cons.mp hkw2 with rfl | h3
          · exact absurd hc2 hk
          · exact Or.inr ⟨rfl, kw2, h3, hc2⟩

/-- The keyword loop preserves freedom from duplicates. -/
theorem nodup_keywordLoop (inp : List Nat) (kws : List (List Nat)) (cat : List Nat)
    (acc : List (List Nat)) (h : acc.Nodup) :
    (keywordLoop inp kws cat acc).Nodup := by
  induction kws generalizing acc with
  | nil => exact h
  | cons kw rest ih =>
    rw [show keywordLoop inp (kw :: rest) cat acc =
      keywordLoop inp rest cat
        (if strContains inp kw then appendIfNotExists acc [cat] else acc) from rfl]
    by_cases hk : strContains inp kw = true
    · rw [if_pos hk]
      exact ih _ (nodup_appendIfNotExists _ _ h)
    · rw [if_neg hk]
      exact ih _ h

/-- Membership after the loop over all header categories. -/
theorem mem_headerLoop (inp : List Nat) (tbl : List (List Nat × List (List Nat)))
    (acc : List (List Nat)) (x : List Nat) :
    x ∈ headerLoop inp tbl acc ↔
      x ∈ acc ∨ ∃ p ∈ tbl, x = p.1 ∧ ∃ kw ∈ p.2, strContains inp kw = true := by
  induction tbl generalizing acc with
  | nil => simp [headerLoop]
  | cons p rest ih =>
    rw [show headerLoop inp (p :: rest) acc =
      headerLoop inp rest (keywordLoop inp p.2 p.1 acc) from rfl, ih, mem_keywordLoop]
    constructor
    · rintro ((h1 | ⟨rfl, kw, hkw, hc⟩) | ⟨q, hq, rfl, kw, hkw, hc⟩)
      · exact Or.inl h1
      · exact Or.inr ⟨p, List.mem_cons_self _ _, rfl, kw, hkw, hc⟩
      · exact Or.inr ⟨q, List.mem_cons_of_mem _ hq, rfl, kw, hkw, hc⟩
    · rintro (h1 | ⟨q, hq, rfl, kw, hkw, hc⟩)
      · exact Or.inl (Or.inl h1)
      · rcases List.mem_cons.mp hq with rfl | h3
        · exact Or.inl (Or.inr ⟨rfl, kw, hkw, hc⟩)
        · exact Or.inr ⟨q, h3, rfl, kw, hkw, hc⟩

/-- The header loop preserves freedom from duplicates. -/
theorem nodup_headerLoop (inp : List Nat) (tbl : List (List Nat × List (List Nat)))
    (acc : List (List Nat)) (h : acc.Nodup) :
    (headerLoop inp tbl acc).Nodup := by
  induction tbl generalizing acc with
  | nil => exact h
  | cons p rest ih =>
    rw [show headerLoop inp (p :: rest) acc =
      headerLoop inp rest (keywordLoop inp p.2 p.1 acc) from rfl]
    exact ih _ (nodup_keywordLoop _ _ _ _ h)

set_option maxHeartbeats 1000000 in
/-- On ASCII and the basic Cyrillic block, lowering absorbs uppering; the
ASCII-crossing mappings (`ſ`, `ı`, `İ`, `K`) lie outside these ranges and
are exactly what breaks the equality elsewhere. -/
theorem toLowerChar_toUpperChar_basic (r : Nat)
    (h : r < 128 ∨ (1024 ≤ r ∧ r ≤ 1279)) :
    toLowerChar (toUpperChar r) = toLowerChar r := by
  unfold toLowerChar toUpperChar
  split_ifs <;> omega

/-- `ToLower` absorbs a preceding `ToUpper` on strings over ASCII and the
basic Cyrillic block. -/
theorem goToLower_goToUpper_basic (s : List Nat)
    (h : ∀ c ∈ s, c < 128 ∨ (1024 ≤ c ∧ c ≤ 1279)) :
    goToLower (goToUpper s) = goToLower s := by
  simp only [goToLower, goToUpper, List.map_map]
  exact List.map_congr_left fun a ha => toLowerChar_toUpperChar_basic a (h a ha)

/-- The six value-rule labels are pairwise distinct. -/
theorem valueLabels_nodup : (valuePatternsTable.map fun p => p.1).Nodup := by
  decide

/-- The classifier body never returns a duplicated category. -/
theorem nodup_checkCore (inp : List Nat) : (checkCore inp).Nodup := by
  unfold checkCore
  have h1 : (valueLoop inp valuePatternsTable []).Nodup := by
    rw [valueLoop_eq, List.nil_append]
    exact List.Nodup.sublist ((List.filter_sublist _).map _) valueLabels_nodup
  have h2 := nodup_headerLoop inp headerPatternsTable _ h1
  dsimp only
  split_ifs
  · exact nodup_appendIfNotExists _ _ (nodup_appendIfNotExists _ _ h2)
  · exact nodup_appendIfNotExists _ _ h2
  · exact nodup_appendIfNotExists _ _ h2
  · exact h2

/-- Claim C6, counterexample: Go's `ToUpper` maps long s `ſ` (U+017F) to
`S`, so upper-casing `ſnilſ` yields `SNILS`, which the classifier's
`snils` keyword matches, while `ſnilſ` itself matches nothing — the
claimed case-insensitivity fails on full Unicode input. -/
theorem c6_counterexample :
    checkForPDNPatterns (goToUpper (str "ſnilſ")) = [str "СНИЛС/ИНН"] ∧
    checkForPDNPatterns (str "ſnilſ") = [] := by decide

/-- Claim C6, amended: the classifier is deterministic (a pure function
whose result list is duplicate-free, so it denotes a set) and
case-insensitive on every string over ASCII and the basic Cyrillic block —
the alphabets its keyword and regex tables inspect.  On full Unicode the
equality can fail, because simple case mappings such as `ſ`→`S` and
`ı`→`I` cross into ASCII and upper-casing can create keyword matches. -/
theorem c6_amended_case_insensitive (s : List Nat)
    (h : ∀ c ∈ s, c < 128 ∨ (1024 ≤ c ∧ c ≤ 1279)) :
    checkForPDNPatterns (goToUpper s) = checkForPDNPatterns s ∧
    (checkForPDNPatterns s).Nodup := by
  constructor
  · unfold checkForPDNPatterns
    rw [goToLower_goToUpper_basic s h]
  · exact nodup_checkCore _

/-- Witness for C6 (amended) at a mixed Cyrillic/ASCII column name. -/
theorem c6_amended_case_insensitive_witness :
    checkForPDNPatterns (goToUpper (str "снилс-id")) =
      checkForPDNPatterns (str "снилс-id") ∧
    (checkForPDNPatterns (str "снилс-id")).Nodup :=
  c6_amended_case_insensitive (str "снилс-id") (by decide)

/-- Reading a character of the lowered string lowers the character read. -/
theorem at0_goToLower (s : List Nat) (i : Nat) :
    at0 (goToLower s) i = toLowerChar (at0 s i) := by
  induction s generalizing i with
  | nil =>
    simp [at0, goToLower]
    decide
  | cons a t ih =>
    cases i with
    | zero => rfl
    | succ n => exact ih n

/-- Lower-casing never creates or destroys a digit. -/
theorem isDigitN_toLowerChar (r : Nat) : isDigitN (toLowerChar r) = isDigitN r := by
  unfold isDigitN toLowerChar
  split_ifs <;> (rw [decide_eq_decide] <;> omega)

/-- The twelve-digit matcher is invariant under the classifier's
lower-casing (digits and non-digits are preserved). -/
theorem innMatch_goToLower (s : List Nat) : innMatch (goToLower s) = innMatch s := by
  have hlen : (goToLower s).length = s.length := List.length_map _ _
  simp only [innMatch, digitsAt, at0_goToLower, isDigitN_toLowerChar, hlen]

/-- The category `ИНН физлица` is in the classifier body's output exactly
when the twelve-digit regex matches: no header keyword rule and neither
extra rule can add this label. -/
theorem inn_mem_checkCore (inp : List Nat) :
    str "ИНН физлица" ∈ checkCore inp ↔ innMatch inp = true := by
  have hstreet : str "ИНН физлица" ≠ str "Адрес" := by decide
  have hbirth : str "ИНН физлица" ≠ str "Дата рождения" := by decide
  have hheader : ∀ p ∈ headerPatternsTable, p.1 ≠ str "ИНН физлица" := by decide
  have hif : ∀ (c : Prop) (inst : Decidable c) (l : List (List Nat)) (y : List Nat),
      str "ИНН физлица" ≠ y →
      (str "ИНН физлица" ∈ (if c then appendIfNotExists l [y] else l) ↔
        str "ИНН физлица" ∈ l) := by
    intro c inst l y hne
    split_ifs
    · rw [mem_appendIfNotExists]
      simp [hne]
    · exact Iff.rfl
  unfold checkCore
  dsimp only
  rw [hif _ _ _ _ hbirth, hif _ _ _ _ hstreet, mem_headerLoop, valueLoop_eq,
    List.nil_append]
  constructor
  · rintro (hv | ⟨p, hp, heq, _⟩)
    · obtain ⟨q, hq, heq⟩ := List.mem_map.mp hv
      obtain ⟨hqtbl, hqmatch⟩ := List.mem_filter.mp hq
      fin_cases hqtbl
      · exact absurd heq (by decide)
      · exact absurd heq (by decide)
      · exact absurd heq (by decide)
      · exact absurd heq (by decide)
      · exact hqmatch
      · exact absurd heq (by decide)
    · exact absurd heq.symm (hheader p hp)
  · intro hm
    left
    rw [List.mem_map]
    refine ⟨(str "ИНН физлица", innMatch), ?_, rfl⟩
    rw [List.mem_filter]
    refine ⟨?_, hm⟩
    unfold valuePatternsTable
    exact List.mem_cons_of_mem _ (List.mem_cons_of_mem _ (List.mem_cons_of_mem _
      (List.mem_cons_of_mem _ (List.mem_cons_self _ _))))

/-- The Boolean matcher agrees with the spec-side boundary predicate. -/
theorem innMatch_iff_innPred (s : List Nat) : innMatch s = true ↔ innPred s := by
  unfold innMatch innPred digitsAt
  simp only [List.any_eq_true, List.mem_range, List.all_eq_true, Bool.and_eq_true,
    Bool.or_eq_true, decide_eq_true_eq, Bool.not_eq_true']
  constructor
  · rintro ⟨i, h1, ⟨hb, hd, hall⟩, ha⟩
    exact ⟨i, h1, hb, ⟨hd, fun t ht => hall t ht⟩, ha⟩
  · rintro ⟨i, h1, hb, ⟨hd, hall⟩, ha⟩
    exact ⟨i, h1, ⟨hb, hd, fun t ht => hall t ht⟩, ha⟩

/-- Claim C8: the classifier assigns `ИНН физлица` exactly when the input
contains a run of twelve decimal digits bounded on both sides by a
non-digit character or the string boundary; in particular a twelve-digit
window inside a longer digit run never triggers it. -/
theorem c8_inn_twelve_digit_boundary (s : List Nat) :
    str "ИНН физлица" ∈ checkForPDNPatterns s ↔ innPred s := by
  unfold checkForPDNPatterns
  rw [inn_mem_checkCore, innMatch_goToLower]
  exact innMatch_iff_innPred s

/-- Witness for C8: a bare twelve-digit run is flagged, a bare
thirteen-digit run is not. -/
theorem c8_inn_twelve_digit_boundary_witness :
    str "ИНН физлица" ∈ checkForPDNPatterns (str "123456789012") ∧
    str "ИНН физлица" ∉ checkForPDNPatterns (str "1234567890123") :=
  ⟨(c8_inn_twelve_digit_boundary (str "123456789012")).mpr (by decide),
   fun h => (by decide : ¬innPred (str "1234567890123"))
     ((c8_inn_twelve_digit_boundary (str "1234567890123")).mp h)⟩

/-- Patterns present after the grouping walk: those already in the
accumulator plus the patterns of the walked values. -/
theorem dedupGo_patterns_mem (values : List (List Nat)) (acc : List ValuePattern)
    (p : List Nat) :
    p ∈ (dedupGo acc values).map (fun e => e.Pattern) ↔
      p ∈ acc.map (fun e => e.Pattern) ∨ p ∈ values.map getValuePattern := by
  induction values generalizing acc with
  | nil => simp [dedupGo]
  | cons v rest ih =>
    rw [show dedupGo acc (v :: rest) =
      (if acc.any (fun e => e.Pattern == getValuePattern v) then dedupGo acc rest
       else dedupGo (acc ++ [⟨v, getValuePattern v⟩]) rest) from rfl]
    by_cases h : acc.any (fun e => e.Pattern == getValuePattern v) = true
    · have hmem : getValuePattern v ∈ acc.map (fun e => e.Pattern) := by
        rw [List.any_eq_true] at h
        obtain ⟨e, he, heq⟩ := h
        rw [beq_iff_eq] at heq
        exact List.mem_map.mpr ⟨e, he, heq⟩
      rw [if_pos h, ih]
      simp only [List.map_cons, List.mem_cons]
      constructor
      · rintro (h1 | h2)
        · exact Or.inl h1
        · exact Or.inr (Or.inr h2)
      · rintro (h1 | rfl | h3)
        · exact Or.inl h1
        · exact Or.inl hmem
        · exact Or.inr h3
    · rw [if_neg h, ih]
      simp only [List.map_append, List.map_cons, List.map_nil, List.mem_append,
        List.mem_singleton, List.mem_cons]
      tauto

/-- The grouping walk keeps the pattern list duplicate-free. -/
theorem dedupGo_patterns_nodup (values : List (List Nat)) (acc : List ValuePattern)
    (h : (acc.map fun e => e.Pattern).Nodup) :
    ((dedupGo acc values).map fun e => e.Pattern).Nodup := by
  induction values generalizing acc with
  | nil => exact h
  | cons v rest ih =>
    rw [show dedupGo acc (v :: rest) =
      (if acc.any (fun e => e.Pattern == getValuePattern v) then dedupGo acc rest
       else dedupGo (acc ++ [⟨v, getValuePattern v⟩]) rest) from rfl]
    by_cases hc : acc.any (fun e => e.Pattern == getValuePattern v) = true
    · rw [if_pos hc]
      exact ih acc h
    · rw [if_neg hc]
      refine ih _ ?_
      have hnot : getValuePattern v ∉ acc.map (fun e => e.Pattern) := by
        intro hmem
        apply hc
        rw [List.any_eq_true]
        obtain ⟨e, he, heq⟩ := List.mem_map.mp hmem
        exact ⟨e, he, by rw [beq_iff_eq]; exact heq⟩
      rw [List.map_append, List.nodup_append]
      refine ⟨h, by simp, ?_⟩
      intro a ha hmem
      simp only [List.map_cons, List.map_nil, List.mem_singleton] at hmem
      subst hmem
      exact hnot ha

/-- Every entry produced by the grouping walk that is not inherited from the
accumulator is the first walked value of its pattern. -/
theorem dedupGo_first_seen (values : List (List Nat)) (acc : List ValuePattern)
    (e : ValuePattern) (he : e ∈ dedupGo acc values) :
    e ∈ acc ∨ ((e.Pattern ∉ acc.map fun x => x.Pattern) ∧
      values.find? (fun v => getValuePattern v == e.Pattern) = some e.Value ∧
      e.Pattern = getValuePattern e.Value) := by
  induction values generalizing acc with
  | nil => exact Or.inl he
  | cons v rest ih =>
    rw [show dedupGo acc (v :: rest) =
      (if acc.any (fun x => x.Pattern == getValuePattern v) then dedupGo acc rest
       else dedupGo (acc ++ [⟨v, getValuePattern v⟩]) rest) from rfl] at he
    by_cases hc : acc.any (fun x => x.Pattern == getValuePattern v) = true
    · rw [if_pos hc] at he
      rcases ih acc he with h1 | ⟨hnot, hfind, hpat⟩
      · exact Or.inl h1
      · have hv : getValuePattern v ∈ acc.map (fun x => x.Pattern) := by
          rw [List.any_eq_true] at hc
          obtain ⟨x, hx, heq⟩ := hc
          rw [beq_iff_eq] at heq
          exact List.mem_map.mpr ⟨x, hx, heq⟩
        have hne : (getValuePattern v == e.Pattern) = false := by
          rw [beq_eq_false_iff_ne]
          intro hcontra
          exact hnot (hcontra ▸ hv)
        refine Or.inr ⟨hnot, ?_, hpat⟩
        rw [List.find?_cons, hne]
        exact hfind
    · rw [if_neg hc] at he
      rcases ih _ he with h1 | ⟨hnot, hfind, hpat⟩
      · rcases List.mem_append.mp h1 with h2 | h2
        · exact Or.inl h2
        · rw [List.mem_singleton] at h2
          subst h2
          have hnot : getValuePattern v ∉ acc.map (fun x => x.Pattern) := by
            intro hmem
            apply hc
            rw [List.any_eq_true]
            obtain ⟨x, hx, heq⟩ := List.mem_map.mp hmem
            exact ⟨x, hx, by rw [beq_iff_eq]; exact heq⟩
          refine Or.inr ⟨hnot, ?_, rfl⟩
          rw [List.find?_cons, show (getValuePattern v == getValuePattern v) = true from
            beq_self_eq_true _]
      · rw [List.map_append] at hnot
        simp only [List.mem_append, List.map_cons, List.map_nil,
          List.mem_singleton, not_or] at hnot
        obtain ⟨hnot1, hnot2⟩ := hnot
        have hne : (getValuePattern v == e.Pattern) = false := by
          rw [beq_eq_false_iff_ne]
          intro hcontra
          exact hnot2 hcontra.symm
        refine Or.inr ⟨hnot1, ?_, hpat⟩
        rw [List.find?_cons, hne]
        exact hfind

/-- Claim C7: the deduplication step keeps exactly one representative per
distinct abstraction pattern (the kept pattern list is duplicate-free and
covers exactly the patterns of the input), and the representative kept for
each pattern is the first input value having that pattern. -/
theorem c7_dedup_first_seen (values : List (List Nat)) :
    ((dedupByPattern values).map fun e => e.Pattern).Nodup ∧
    (∀ p, p ∈ (dedupByPattern values).map (fun e => e.Pattern) ↔
      p ∈ values.map getValuePattern) ∧
    (∀ e ∈ dedupByPattern values,
      values.find? (fun v => getValuePattern v == e.Pattern) = some e.Value) := by
  unfold dedupByPattern
  refine ⟨dedupGo_patterns_nodup values [] (by simp), ?_, ?_⟩
  · intro p
    rw [dedupGo_patterns_mem]
    simp
  · intro e he
    rcases dedupGo_first_seen values [] e he with h | ⟨_, hf, _⟩
    · exact absurd h (List.not_mem_nil e)
    · exact hf

/-- Sanity example: a value sampled twice collapses to one representative. -/
theorem dedup_example :
    dedupByPattern [str "ab", str "ab", str "x1"] =
      [⟨str "ab", str "AA"⟩, ⟨str "x1", str "A9"⟩] := by decide

/-- Header records survive the header filter untouched. -/
theorem filter_header_headerRecords (database schema tname ttype : List Nat)
    (col : ColumnInfo) (values : List ValuePattern) :
    (headerRecords database schema tname ttype col values).filter
        (fun r => r.FoundIn == str "header") =
      headerRecords database schema tname ttype col values := by
  rw [List.filter_eq_self]
  intro a ha
  obtain ⟨t, _, rfl⟩ := List.mem_map.mp ha
  exact beq_self_eq_true _

/-- Value records never carry header evidence. -/
theorem filter_header_valueRecords (database schema tname ttype : List Nat)
    (col : ColumnInfo) (values : List ValuePattern) :
    (valueRecords database schema tname ttype col values).filter
      (fun r => r.FoundIn == str "header") = [] := by
  rw [List.filter_eq_nil_iff]
  intro a ha
  obtain ⟨l, hl, hal⟩ := List.mem_flatten.mp ha
  obtain ⟨v, _, rfl⟩ := List.mem_map.mp hl
  obtain ⟨t, _, rfl⟩ := List.mem_map.mp hal
  exact (by decide : ¬(str "value" == str "header") = true)

/-- The fallback record never carries header evidence. -/
theorem filter_header_noneRecords (database schema tname ttype : List Nat)
    (col : ColumnInfo) (values : List ValuePattern) :
    (noneRecords database schema tname ttype col values).filter
      (fun r => r.FoundIn == str "header") = [] := by
  unfold noneRecords
  split_ifs
  · rw [List.filter_eq_nil_iff]
    intro a ha
    rw [List.mem_singleton] at ha
    subst ha
    exact (by decide : ¬(str "none" == str "header") = true)
  · rfl

/-- Claim C9, counterexample: Go iterates `patternMap` in unspecified
order, so `values[0]` is an arbitrary pattern representative.  With raw
samples `x1` then `ab` (two distinct patterns), delivering the `ab`
representative first is a legitimate sampler outcome (a permutation of the
canonical grouping), and then the header record of an `email` column
carries `ab` — not the column's first sampled value `x1`. -/
theorem c9_counterexample :
    ([⟨str "ab", str "AA"⟩, ⟨str "x1", str "A9"⟩] : List ValuePattern).Perm
      (dedupByPattern [str "x1", str "ab"]) ∧
    (∃ r ∈ analyzeColumn (str "db") (str "dbo") (str "t") (str "BASE TABLE")
      { ColumnName := str "email", DataType := str "nvarchar" }
      (.ok [⟨str "ab", str "AA"⟩, ⟨str "x1", str "A9"⟩]),
      r.FoundIn = str "header" ∧ r.SampleValue = str "ab") ∧
    str "ab" ≠ str "x1" := by decide

/-- Claim C9, amended: whatever permutation of the canonical first-seen
grouping the sampler delivers (Go's map iteration order is unspecified),
the header-evidence records of a column analysis are exactly one per
category matched on the column name; each carries the first DELIVERED
representative (`N/A` when no sample exists) and its pattern.  That
representative is one of the column's sampled values — the first raw
sample of its own pattern — but not in general the column's first sampled
value. -/
theorem c9_amended_header_results (database schema tname ttype : List Nat)
    (col : ColumnInfo) (rawValues : List (List Nat)) (values : List ValuePattern)
    (hperm : values.Perm (dedupByPattern rawValues)) :
    (analyzeColumn database schema tname ttype col (.ok values)).filter
        (fun r => r.FoundIn == str "header") =
      headerRecords database schema tname ttype col values ∧
    (headerRecords database schema tname ttype col values).length =
      (checkForPDNPatterns col.ColumnName).length ∧
    (∀ r ∈ headerRecords database schema tname ttype col values,
      r.FoundIn = str "header" ∧ r.SampleValue = firstSampleValue values ∧
      r.Pattern = firstSamplePattern values ∧ r.ColumnName = col.ColumnName ∧
      r.PDNType ∈ checkForPDNPatterns col.ColumnName) ∧
    (∀ e ∈ values,
      rawValues.find? (fun v => getValuePattern v == e.Pattern) = some e.Value) := by
  refine ⟨?_, List.length_map _ _, ?_, ?_⟩
  · rw [show analyzeColumn database schema tname ttype col (.ok values) =
      headerRecords database schema tname ttype col values ++
        valueRecords database schema tname ttype col values ++
        noneRecords database schema tname ttype col values from rfl]
    rw [List.filter_append, List.filter_append, filter_header_headerRecords,
      filter_header_valueRecords, filter_header_noneRecords, List.append_nil,
      List.append_nil]
  · intro r hr
    obtain ⟨t, ht, rfl⟩ := List.mem_map.mp hr
    exact ⟨rfl, rfl, rfl, rfl, ht⟩
  · intro e he
    have he2 : e ∈ dedupByPattern rawValues := (hperm.mem_iff).mp he
    rcases dedupGo_first_seen rawValues [] e he2 with h | ⟨_, hf, _⟩
    · exact absurd h (List.not_mem_nil e)
    · exact hf

/-- Witness for C9 (amended) at the two-pattern sampler outcome delivered
in swapped order: the header filter matches, and the delivered head `ab`
is the first raw sample of its own pattern. -/
theorem c9_amended_header_results_witness :
    (analyzeColumn (str "db") (str "dbo") (str "t") (str "BASE TABLE")
      { ColumnName := str "email", DataType := str "nvarchar" }
      (.ok [⟨str "ab", str "AA"⟩, ⟨str "x1", str "A9"⟩])).filter
        (fun r => r.FoundIn == str "header") =
      headerRecords (str "db") (str "dbo") (str "t") (str "BASE TABLE")
        { ColumnName := str "email", DataType := str "nvarchar" }
        [⟨str "ab", str "AA"⟩, ⟨str "x1", str "A9"⟩] ∧
    [str "x1", str "ab"].find? (fun v => getValuePattern v == str "AA") =
      some (str "ab") :=
  ⟨(c9_amended_header_results (str "db") (str "dbo") (str "t") (str "BASE TABLE")
      { ColumnName := str "email", DataType := str "nvarchar" }
      [str "x1", str "ab"] [⟨str "ab", str "AA"⟩, ⟨str "x1", str "A9"⟩]
      (by decide)).1,
   (c9_amended_header_results (str "db") (str "dbo") (str "t") (str "BASE TABLE")
      { ColumnName := str "email", DataType := str "nvarchar" }
      [str "x1", str "ab"] [⟨str "ab", str "AA"⟩, ⟨str "x1", str "A9"⟩]
      (by decide)).2.2.2 ⟨str "ab", str "AA"⟩ (by decide)⟩

/-- Every record a column analysis produces names its own column. -/
theorem analyzeColumn_columnName (database schema tname ttype : List Nat)
    (col : ColumnInfo) (sampled : SampleOutcome) :
    ∀ r ∈ analyzeColumn database schema tname ttype col sampled,
      r.ColumnName = col.ColumnName := by
  intro r hr
  cases sampled with
  | fail e =>
    simp only [analyzeColumn, List.mem_singleton] at hr
    subst hr
    rfl
  | ok values =>
    rcases List.mem_append.mp hr with h1 | h2
    · rcases List.mem_append.mp h1 with h3 | h4
      · obtain ⟨t, _, rfl⟩ := List.mem_map.mp h3
        rfl
      · obtain ⟨l, hl, hal⟩ := List.mem_flatten.mp h4
        obtain ⟨v, _, rfl⟩ := List.mem_map.mp hl
        obtain ⟨t, _, rfl⟩ := List.mem_map.mp hal
        rfl
    · unfold noneRecords at h2
      split_ifs at h2
      · rw [List.mem_singleton] at h2
        subst h2
        rfl
      · exact absurd h2 (List.not_mem_nil r)

/-- No record a column analysis produces carries timeout evidence. -/
theorem analyzeColumn_no_timeout (database schema tname ttype : List Nat)
    (col : ColumnInfo) (sampled : SampleOutcome) :
    ∀ r ∈ analyzeColumn database schema tname ttype col sampled,
      r.FoundIn ≠ str "timeout" := by
  intro r hr
  cases sampled with
  | fail e =>
    simp only [analyzeColumn, List.mem_singleton] at hr
    subst hr
    exact (by decide : str "error" ≠ str "timeout")
  | ok values =>
    rcases List.mem_append.mp hr with h1 | h2
    · rcases List.mem_append.mp h1 with h3 | h4
      · obtain ⟨t, _, rfl⟩ := List.mem_map.mp h3
        exact (by decide : str "header" ≠ str "timeout")
      · obtain ⟨l, hl, hal⟩ := List.mem_flatten.mp h4
        obtain ⟨v, _, rfl⟩ := List.mem_map.mp hl
        obtain ⟨t, _, rfl⟩ := List.mem_map.mp hal
        exact (by decide : str "value" ≠ str "timeout")
    · unfold noneRecords at h2
      split_ifs at h2
      · rw [List.mem_singleton] at h2
        subst h2
        exact (by decide : str "none" ≠ str "timeout")
      · exact absurd h2 (List.not_mem_nil r)

/-- The value loop's accumulator is empty when no sampled value matches. -/
theorem valuePdnTypesOf_eq_nil (values : List ValuePattern)
    (h : ∀ v ∈ values, checkForPDNPatterns v.Value = []) :
    valuePdnTypesOf values = [] := by
  unfold valuePdnTypesOf
  have aux : ∀ (l : List ValuePattern) (acc : List (List Nat)),
      (∀ v ∈ l, checkForPDNPatterns v.Value = []) →
      l.foldl (fun acc v =>
        let ts := checkForPDNPatterns v.Value
        if ts = [] then acc else appendIfNotExists acc ts) acc = acc := by
    intro l
    induction l with
    | nil => intro acc _; rfl
    | cons v rest ih =>
      intro acc hall
      rw [List.foldl_cons]
      dsimp only
      rw [if_pos (hall v (List.mem_cons_self _ _))]
      exact ih acc fun w hw => hall w (List.mem_cons_of_mem _ hw)
  exact aux values [] h

/-- A column analysis always produces at least one record. -/
theorem analyzeColumn_ne_nil (database schema tname ttype : List Nat)
    (col : ColumnInfo) (sampled : SampleOutcome) :
    analyzeColumn database schema tname ttype col sampled ≠ [] := by
  cases sampled with
  | fail e => exact List.cons_ne_nil _ _
  | ok values =>
    intro hnil
    rw [show analyzeColumn database schema tname ttype col (.ok values) =
      headerRecords database schema tname ttype col values ++
        valueRecords database schema tname ttype col values ++
        noneRecords database schema tname ttype col values from rfl] at hnil
    rw [List.append_eq_nil, List.append_eq_nil] at hnil
    obtain ⟨⟨hH, hV⟩, hN⟩ := hnil
    have hpdn : checkForPDNPatterns col.ColumnName = [] := by
      unfold headerRecords at hH
      exact List.map_eq_nil_iff.mp hH
    have hvals : ∀ v ∈ values, checkForPDNPatterns v.Value = [] := by
      intro v hv
      unfold valueRecords at hV
      rw [List.flatten_eq_nil_iff] at hV
      have := hV _ (List.mem_map.mpr ⟨v, hv, rfl⟩)
      exact List.map_eq_nil_iff.mp this
    unfold noneRecords at hN
    rw [if_pos ⟨hpdn, valuePdnTypesOf_eq_nil values hvals⟩] at hN
    exact List.cons_ne_nil _ _ hN

/-- Records sent during the collection loop: all records of every column
whose completion the loop observed. -/
theorem mem_tableLoopEmitted (database schema tname ttype : List Nat)
    (tasks : List ColumnTask) (r : PDNResult) :
    r ∈ tableLoopEmitted database schema tname ttype tasks ↔
      ∃ tk ∈ tasks, tk.observed = true ∧
        r ∈ analyzeColumn database schema tname ttype tk.col tk.sampled := by
  unfold tableLoopEmitted
  constructor
  · intro h
    obtain ⟨l, hl, hr⟩ := List.mem_flatten.mp h
    obtain ⟨tk, htk, rfl⟩ := List.mem_map.mp hl
    obtain ⟨htasks, hobs⟩ := List.mem_filter.mp htk
    exact ⟨tk, htasks, hobs, hr⟩
  · rintro ⟨tk, htasks, hobs, hr⟩
    exact List.mem_flatten.mpr
      ⟨_, List.mem_map.mpr ⟨tk, List.mem_filter.mpr ⟨htasks, hobs⟩, rfl⟩, hr⟩

/-- A name is marked processed exactly when some observed column bears it. -/
theorem mem_processedNames (database schema tname ttype : List Nat)
    (tasks : List ColumnTask) (c : List Nat) :
    c ∈ processedNames database schema tname ttype tasks ↔
      ∃ tk ∈ tasks, tk.observed = true ∧ c = tk.col.ColumnName := by
  unfold processedNames
  constructor
  · intro h
    obtain ⟨r, hr, rfl⟩ := List.mem_map.mp h
    obtain ⟨tk, htasks, hobs, hr2⟩ :=
      (mem_tableLoopEmitted database schema tname ttype tasks r).mp hr
    exact ⟨tk, htasks, hobs,
      analyzeColumn_columnName database schema tname ttype tk.col tk.sampled r hr2⟩
  · rintro ⟨tk, htasks, hobs, rfl⟩
    obtain ⟨r, hr⟩ := List.exists_mem_of_ne_nil _
      (analyzeColumn_ne_nil database schema tname ttype tk.col tk.sampled)
    refine List.mem_map.mpr ⟨r, ?_, analyzeColumn_columnName database schema tname
      ttype tk.col tk.sampled r hr⟩
    exact (mem_tableLoopEmitted database schema tname ttype tasks r).mpr
      ⟨tk, htasks, hobs, hr⟩

/-- The timeout synthetics: one per column whose name was never processed. -/
theorem mem_tableTimeouts (database schema tname ttype : List Nat)
    (tasks : List ColumnTask) (r : PDNResult) :
    r ∈ tableTimeouts database schema tname ttype tasks ↔
      ∃ tk ∈ tasks,
        contains (processedNames database schema tname ttype tasks)
          tk.col.ColumnName = false ∧
        r = timeoutRecord database schema tname ttype tk.col.ColumnName := by
  unfold tableTimeouts
  constructor
  · intro h
    obtain ⟨tk, htk, rfl⟩ := List.mem_map.mp h
    obtain ⟨htasks, hq⟩ := List.mem_filter.mp htk
    rw [Bool.not_eq_true'] at hq
    exact ⟨tk, htasks, hq, rfl⟩
  · rintro ⟨tk, htk, hq, rfl⟩
    refine List.mem_map.mpr ⟨tk, List.mem_filter.mpr ⟨htk, ?_⟩, rfl⟩
    rw [Bool.not_eq_true']
    exact hq

/-- Collection-loop records are never timeout records, so the timeout count
over them is zero. -/
theorem loopEmitted_timeout_filter_nil (database schema tname ttype : List Nat)
    (tasks : List ColumnTask) (c : List Nat) :
    ((tableLoopEmitted database schema tname ttype tasks).filter fun r =>
      r.ColumnName == c && (r.FoundIn == str "timeout")) = [] := by
  rw [List.filter_eq_nil_iff]
  intro r hr hpred
  obtain ⟨tk, _, _, hr2⟩ :=
    (mem_tableLoopEmitted database schema tname ttype tasks r).mp hr
  rw [Bool.and_eq_true, beq_iff_eq, beq_iff_eq] at hpred
  exact analyzeColumn_no_timeout database schema tname ttype tk.col tk.sampled
    r hr2 hpred.2

/-- A filter that exactly one element of a duplicate-free list satisfies
keeps exactly that element. -/
theorem filter_eq_singleton_of_uniq {α : Type} (l : List α) (t : α) (p : α → Bool)
    (hl : l.Nodup) (hmem : t ∈ l) (hp : p t = true)
    (huniq : ∀ x ∈ l, p x = true → x = t) : l.filter p = [t] := by
  induction l with
  | nil => cases hmem
  | cons a rest ih =>
    rw [List.nodup_cons] at hl
    rcases List.mem_cons.mp hmem with rfl | hmem2
    · rw [List.filter_cons, if_pos hp]
      have hrest : rest.filter p = [] := by
        rw [List.filter_eq_nil_iff]
        intro x hx hpx
        have := huniq x (List.mem_cons_of_mem _ hx) hpx
        subst this
        exact hl.1 hx
      rw [hrest]
    · have hpa : ¬p a = true := by
        intro hpa
        have := huniq a (List.mem_cons_self _ _) hpa
        subst this
        exact hl.1 hmem2
      rw [List.filter_cons, if_neg hpa]
      exact ih hl.2 hmem2 fun x hx hpx => huniq x (List.mem_cons_of_mem _ hx) hpx

/-- Exactly one timeout synthetic is emitted for an unprocessed column of a
table with pairwise distinct column names. -/
theorem timeouts_count_one (database schema tname ttype : List Nat)
    (tasks : List ColumnTask)
    (hnodup : (tasks.map fun tk => tk.col.ColumnName).Nodup)
    (tk : ColumnTask) (htk : tk ∈ tasks)
    (hnotproc : ¬tk.col.ColumnName ∈ processedNames database schema tname ttype tasks) :
    ((tableTimeouts database schema tname ttype tasks).filter fun r =>
      r.ColumnName == tk.col.ColumnName && (r.FoundIn == str "timeout")).length = 1 := by
  have hinj : ∀ a ∈ tasks, ∀ b ∈ tasks, a.col.ColumnName = b.col.ColumnName → a = b :=
    fun a ha b hb heq => List.inj_on_of_nodup_map hnodup ha hb heq
  have hcontains : contains (processedNames database schema tname ttype tasks)
      tk.col.ColumnName = false := by
    rcases h : contains (processedNames database schema tname ttype tasks)
      tk.col.ColumnName with _ | _
    · rfl
    · exact absurd ((contains_iff_mem _ _).mp h) hnotproc
  have hnodupT : (tableTimeouts database schema tname ttype tasks).Nodup := by
    unfold tableTimeouts
    refine List.Nodup.map_on ?_ (List.Nodup.sublist (List.filter_sublist _) hnodup.of_map)
    intro x hx y hy heq
    have hnames : x.col.ColumnName = y.col.ColumnName :=
      congrArg PDNResult.ColumnName heq
    exact hinj x (List.mem_of_mem_filter hx) y (List.mem_of_mem_filter hy) hnames
  have key : (tableTimeouts database schema tname ttype tasks).filter (fun r =>
      r.ColumnName == tk.col.ColumnName && (r.FoundIn == str "timeout")) =
      [timeoutRecord database schema tname ttype tk.col.ColumnName] := by
    refine filter_eq_singleton_of_uniq _ _ _ hnodupT ?_ ?_ ?_
    · exact (mem_tableTimeouts database schema tname ttype tasks _).mpr
        ⟨tk, htk, hcontains, rfl⟩
    · show (tk.col.ColumnName == tk.col.ColumnName &&
        (str "timeout" == str "timeout")) = true
      rw [beq_self_eq_true, beq_self_eq_true]
      rfl
    · intro x hx hpred
      obtain ⟨tk2, htk2, _, rfl⟩ :=
        (mem_tableTimeouts database schema tname ttype tasks x).mp hx
      rw [Bool.and_eq_true] at hpred
      have h1 := hpred.1
      rw [beq_iff_eq] at h1
      have h2 : tk2.col.ColumnName = tk.col.ColumnName := h1
      rw [h2]
  rw [key]
  rfl


/-- Claim C2: for every dispatched column of a table with pairwise distinct
column names (SQL guarantees uniqueness within a table), and whatever subset
of column completions the aggregation loop observes before the table budget
expires, the delivered record set holds either real (non-timeout) records
for that column and no timeout synthetic, or no real record and exactly one
timeout synthetic — never both, never neither. -/
theorem c2_exactly_one_disposition (database schema tname ttype : List Nat)
    (tasks : List ColumnTask)
    (hnodup : (tasks.map fun tk => tk.col.ColumnName).Nodup) :
    ∀ tk ∈ tasks,
      ((∃ r ∈ tableDelivered database schema tname ttype tasks,
          r.ColumnName = tk.col.ColumnName ∧ r.FoundIn ≠ str "timeout") ∧
        ((tableDelivered database schema tname ttype tasks).filter fun r =>
          r.ColumnName == tk.col.ColumnName && (r.FoundIn == str "timeout")).length
          = 0) ∨
      ((¬∃ r ∈ tableDelivered database schema tname ttype tasks,
          r.ColumnName = tk.col.ColumnName ∧ r.FoundIn ≠ str "timeout") ∧
        ((tableDelivered database schema tname ttype tasks).filter fun r =>
          r.ColumnName == tk.col.ColumnName && (r.FoundIn == str "timeout")).length
          = 1) := by
  intro tk htk
  have hinj : ∀ a ∈ tasks, ∀ b ∈ tasks, a.col.ColumnName = b.col.ColumnName → a = b :=
    fun a ha b hb heq => List.inj_on_of_nodup_map hnodup ha hb heq
  have hdeliv : tableDelivered database schema tname ttype tasks =
      tableLoopEmitted database schema tname ttype tasks ++
        tableTimeouts database schema tname ttype tasks := rfl
  by_cases hobs : tk.observed = true
  · left
    constructor
    · obtain ⟨r, hr⟩ := List.exists_mem_of_ne_nil _
        (analyzeColumn_ne_nil database schema tname ttype tk.col tk.sampled)
      refine ⟨r, ?_, analyzeColumn_columnName database schema tname ttype tk.col
        tk.sampled r hr, analyzeColumn_no_timeout database schema tname ttype tk.col
        tk.sampled r hr⟩
      rw [hdeliv]
      exact List.mem_append.mpr (Or.inl
        ((mem_tableLoopEmitted database schema tname ttype tasks r).mpr
          ⟨tk, htk, hobs, hr⟩))
    · rw [hdeliv, List.filter_append, List.length_append,
        loopEmitted_timeout_filter_nil]
      have hT : ((tableTimeouts database schema tname ttype tasks).filter fun r =>
          r.ColumnName == tk.col.ColumnName && (r.FoundIn == str "timeout")) = [] := by
        rw [List.filter_eq_nil_iff]
        intro r hr hpred
        obtain ⟨tk2, htk2, hc2, rfl⟩ :=
          (mem_tableTimeouts database schema tname ttype tasks r).mp hr
        rw [Bool.and_eq_true] at hpred
        have h1 := hpred.1
        rw [beq_iff_eq] at h1
        have h2 : tk2.col.ColumnName = tk.col.ColumnName := h1
        have h3 : tk2 = tk := hinj tk2 htk2 tk htk h2
        subst h3
        have hproc : tk2.col.ColumnName ∈
            processedNames database schema tname ttype tasks :=
          (mem_processedNames database schema tname ttype tasks _).mpr
            ⟨tk2, htk2, hobs, rfl⟩
        rw [← contains_iff_mem, hc2] at hproc
        exact Bool.false_ne_true hproc
      rw [hT]
      rfl
  · right
    have hnotproc : ¬tk.col.ColumnName ∈
        processedNames database schema tname ttype tasks := by
      intro hmem
      obtain ⟨tk2, htk2, hobs2, heq⟩ :=
        (mem_processedNames database schema tname ttype tasks _).mp hmem
      have h3 : tk = tk2 := hinj tk htk tk2 htk2 heq
      rw [← h3] at hobs2
      exact hobs hobs2
    constructor
    · rintro ⟨r, hr, hname, hfoundin⟩
      rw [hdeliv] at hr
      rcases List.mem_append.mp hr with h1 | h2
      · obtain ⟨tk2, htk2, hobs2, hr2⟩ :=
          (mem_tableLoopEmitted database schema tname ttype tasks r).mp h1
        have hname2 := analyzeColumn_columnName database schema tname ttype tk2.col
          tk2.sampled r hr2
        have h3 : tk2 = tk := hinj tk2 htk2 tk htk (by rw [← hname2]; exact hname)
        exact hobs (h3 ▸ hobs2)
      · obtain ⟨tk2, htk2, _, rfl⟩ :=
          (mem_tableTimeouts database schema tname ttype tasks r).mp h2
        exact hfoundin rfl
    · rw [hdeliv, List.filter_append, List.length_append,
        loopEmitted_timeout_filter_nil,
        timeouts_count_one database schema tname ttype tasks hnodup tk htk hnotproc]
      rfl

/-- Witness for C2: the never-observed column of the concrete three-column
table gets exactly one timeout synthetic and no real record. -/
theorem c2_exactly_one_disposition_witness :
    ((∃ r ∈ tableDelivered (str "db") (str "dbo") (str "t") (str "BASE TABLE")
        sampleTasks,
        r.ColumnName = taskNote.col.ColumnName ∧ r.FoundIn ≠ str "timeout") ∧
      ((tableDelivered (str "db") (str "dbo") (str "t") (str "BASE TABLE")
        sampleTasks).filter fun r =>
        r.ColumnName == taskNote.col.ColumnName && (r.FoundIn == str "timeout")).length
        = 0) ∨
    ((¬∃ r ∈ tableDelivered (str "db") (str "dbo") (str "t") (str "BASE TABLE")
        sampleTasks,
        r.ColumnName = taskNote.col.ColumnName ∧ r.FoundIn ≠ str "timeout") ∧
      ((tableDelivered (str "db") (str "dbo") (str "t") (str "BASE TABLE")
        sampleTasks).filter fun r =>
        r.ColumnName == taskNote.col.ColumnName && (r.FoundIn == str "timeout")).length
        = 1) :=
  c2_exactly_one_disposition (str "db") (str "dbo") (str "t") (str "BASE TABLE")
    sampleTasks (by decide) taskNote (by decide)

/-- Claim C1, counterexample: a one-column table whose only category is
`Адрес`.  No other category is present, yet the record delivered to the
output sink still carries `Адрес`: the collection loop sends each record to
`resultsChan` BEFORE the suppression pass runs over the local
`allTableResults` copy, so the claimed downgrade never reaches the sink. -/
theorem c1_counterexample :
    hasOtherPersonalData (tableLoopEmitted (str "db") (str "dbo") (str "t")
      (str "BASE TABLE") [addressTask]) = false ∧
    ∃ r ∈ tableDelivered (str "db") (str "dbo") (str "t") (str "BASE TABLE")
      [addressTask], r.PDNType = str "Адрес" := by decide

/-- Claim C1, amended: when no category other than `Адрес`/`Нет`/`Не
обработано` was collected, the suppression pass downgrades every `Адрес`
entry to `Нет` — but only in the in-memory aggregate used for the console
summary; what reaches the output sink is the unsuppressed loop records
followed by the timeout synthetics, in all cases. -/
theorem c1_amended_suppression (database schema tname ttype : List Nat)
    (tasks : List ColumnTask)
    (h : hasOtherPersonalData
      (tableLoopEmitted database schema tname ttype tasks) = false) :
    suppressAddress (tableLoopEmitted database schema tname ttype tasks) =
      (tableLoopEmitted database schema tname ttype tasks).map (fun r =>
        if r.PDNType == str "Адрес" then { r with PDNType := str "Нет" } else r) ∧
    (∀ r ∈ suppressAddress (tableLoopEmitted database schema tname ttype tasks),
      r.PDNType ≠ str "Адрес") ∧
    tableDelivered database schema tname ttype tasks =
      tableLoopEmitted database schema tname ttype tasks ++
        tableTimeouts database schema tname ttype tasks := by
  have hne : ¬hasOtherPersonalData
      (tableLoopEmitted database schema tname ttype tasks) = true := by
    rw [h]
    exact Bool.false_ne_true
  have heq : suppressAddress (tableLoopEmitted database schema tname ttype tasks) =
      (tableLoopEmitted database schema tname ttype tasks).map (fun r =>
        if r.PDNType == str "Адрес" then { r with PDNType := str "Нет" } else r) := by
    unfold suppressAddress
    rw [if_neg hne]
  refine ⟨heq, ?_, rfl⟩
  intro r hr
  rw [heq] at hr
  obtain ⟨r0, _, rfl⟩ := List.mem_map.mp hr
  by_cases hc : (r0.PDNType == str "Адрес") = true
  · rw [if_pos hc]
    intro hcontra
    have h2 : str "Нет" = str "Адрес" := hcontra
    exact absurd h2 (by decide)
  · rw [if_neg hc]
    intro hcontra
    apply hc
    rw [hcontra]
    exact beq_self_eq_true _

/-- Witness for C1 (amended) at the address-only table. -/
theorem c1_amended_suppression_witness :
    suppressAddress (tableLoopEmitted (str "db") (str "dbo") (str "t")
      (str "BASE TABLE") [addressTask]) =
      (tableLoopEmitted (str "db") (str "dbo") (str "t") (str "BASE TABLE")
        [addressTask]).map (fun r =>
        if r.PDNType == str "Адрес" then { r with PDNType := str "Нет" } else r) ∧
    tableDelivered (str "db") (str "dbo") (str "t") (str "BASE TABLE")
      [addressTask] =
      tableLoopEmitted (str "db") (str "dbo") (str "t") (str "BASE TABLE")
        [addressTask] ++
        tableTimeouts (str "db") (str "dbo") (str "t") (str "BASE TABLE")
          [addressTask] :=
  ⟨(c1_amended_suppression (str "db") (str "dbo") (str "t") (str "BASE TABLE")
      [addressTask] (by decide)).1,
   (c1_amended_suppression (str "db") (str "dbo") (str "t") (str "BASE TABLE")
      [addressTask] (by decide)).2.2⟩

end PdnChecker
